import Mathlib

/-!
Verification of the sha1hulud-scanner detection engine.

The definitions below are a shallow embedding of `src/reporter.js`
(the `MalwareScanner` class and its helpers `parseVersion` /
`versionMatches`) and of the CLI exit-code mapping in the scanner's
binary. JavaScript strings are modelled as `String` / `List Char`,
JavaScript numbers on version components as `Nat` (version components
are small; float precision of `parseInt` is never exercised), the
regular expressions of the source are modelled by hand-rolled matchers
with the same leftmost / greedy semantics, and the filesystem as an
inductive tree. `JSON.parse` is a platform builtin (not code of this
repository), so manifest parsing is a parameter `parseJson` returning
the four dependency sections; a parse failure is `none`, matching the
`try { JSON.parse ... } catch { /* skip */ }` of `scanJsonFile`.
-/

namespace Sha1hulud

/-- JavaScript whitespace as used by `String.prototype.trim` and the
regex class `\s`: the ASCII whitespace characters plus the two common
Unicode members (NBSP and BOM). The scanner only ever meets these. -/
def isJsSpace (c : Char) : Bool :=
  c = ' ' || c = '\t' || c = '\n' || c = '\r' || c = '\x0b' || c = '\x0c' ||
  c = ' ' || c = '﻿'

/-- Model of `String.prototype.trim`: drop JavaScript whitespace from
both ends of the character list. -/
def jsTrim (l : List Char) : List Char :=
  ((l.dropWhile isJsSpace).reverse.dropWhile isJsSpace).reverse

/-- `rangeSpec.replace(/^[\^~]/, '')` of the source: remove one leading
caret or tilde, if present. -/
def stripRangeChar : List Char → List Char
  | [] => []
  | c :: cs => if c = '^' || c = '~' then cs else c :: cs

/-- `rangeSpec.startsWith('^')`. -/
def startsCaret : List Char → Bool
  | '^' :: _ => true
  | _ => false

/-- `rangeSpec.startsWith('~')`. -/
def startsTilde : List Char → Bool
  | '~' :: _ => true
  | _ => false

/-- The parsed `{major, minor, patch}` object of the source. -/
structure Version where
  major : Nat
  minor : Nat
  patch : Nat
deriving DecidableEq

/-- The maximal digit run at the head of the list and the remainder.
In `/(\d+)\.(\d+)\.(\d+)/` each `\d+` is followed by `\.` or is the last
group, and a digit can never satisfy the continuation, so the greedy
maximal run is what the regex engine commits to. -/
def takeDigits : List Char → List Char × List Char
  | [] => ([], [])
  | c :: cs =>
    if c.isDigit then
      let p := takeDigits cs
      (c :: p.1, p.2)
    else ([], c :: cs)

/-- `parseInt(run, 10)` on a nonempty digit run. -/
def digitsToNat (l : List Char) : Nat :=
  l.foldl (fun n c => 10 * n + (c.toNat - 48)) 0

/-- One attempt of `/(\d+)\.(\d+)\.(\d+)/` anchored at the head of the
list: three nonempty digit runs separated by dots. -/
def matchTriple (s : List Char) : Option Version :=
  let p1 := takeDigits s
  if p1.1 = [] then none else
  match p1.2 with
  | [] => none
  | c1 :: r1 =>
    if c1 = '.' then
      let p2 := takeDigits r1
      if p2.1 = [] then none else
      match p2.2 with
      | [] => none
      | c2 :: r2 =>
        if c2 = '.' then
          let p3 := takeDigits r2
          if p3.1 = [] then none else
          some ⟨digitsToNat p1.1, digitsToNat p2.1, digitsToNat p3.1⟩
        else none
    else none

/-- The leftmost match of `/(\d+)\.(\d+)\.(\d+)/`: try every start
position from the left, as the regex engine does. -/
def findTriple : List Char → Option Version
  | [] => none
  | c :: cs =>
    match matchTriple (c :: cs) with
    | some v => some v
    | none => findTriple cs

/-- `parseVersion` of the source: extract the first `major.minor.patch`
integer triple of the string, or `null`. -/
def parseVersion (versionString : String) : Option Version :=
  findTriple versionString.toList

/-- `versionMatches(rangeSpec, targetVersion)` of the source: trim both,
return `true` on exact textual identity, else parse both (the range with
one leading `^`/`~` removed) and apply caret / tilde / exact semantics;
`false` whenever either side fails to parse. -/
def versionMatches (rangeSpec targetVersion : String) : Bool :=
  let r := jsTrim rangeSpec.toList
  let t := jsTrim targetVersion.toList
  if r = t then true
  else
    match findTriple (stripRangeChar r), findTriple t with
    | some range, some target =>
      if startsCaret r then
        if range.major = 0 then
          if range.minor = 0 then
            decide (target.major = 0 ∧ target.minor = 0 ∧ target.patch = range.patch)
          else
            decide (target.major = 0 ∧ target.minor = range.minor ∧ range.patch ≤ target.patch)
        else
          decide (target.major = range.major ∧
            (range.minor < target.minor ∨
              (target.minor = range.minor ∧ range.patch ≤ target.patch)))
      else if startsTilde r then
        decide (target.major = range.major ∧ target.minor = range.minor ∧
          range.patch ≤ target.patch)
      else
        decide (target.major = range.major ∧ target.minor = range.minor ∧
          target.patch = range.patch)
    | _, _ => false

/-! ## The malicious-package database and findings -/

/-- The severity strings `'CRITICAL' | 'WARNING' | 'INFO'` of the source. -/
inductive Severity where
  | CRITICAL
  | WARNING
  | INFO
deriving DecidableEq

/-- The database object `maliciousVersions` (package name to known
malicious version list), kept as the association list of its entries.
JavaScript object keys are unique, so `find?` models property lookup. -/
def lookupVersions (db : List (String × List String)) (pkg : String) : List String :=
  match db.find? (fun e => e.1 = pkg) with
  | some e => e.2
  | none => []

/-- The record `{matches, matchedVersions, allMaliciousVersions}` that
`checkVersionAgainstMalicious` returns. -/
structure VersionCheck where
  matchesFound : Bool
  matchedVersions : List String
  allMaliciousVersions : List String
deriving DecidableEq

/-- `checkVersionAgainstMalicious(pkgName, versionSpec)`: collect the
known malicious versions of the package satisfying the spec. A package
absent from the database takes the early `{matches: false, [], []}`
return, which coincides with running the loop over an empty list. -/
def checkVersionAgainstMalicious (db : List (String × List String))
    (pkgName versionSpec : String) : VersionCheck :=
  let maliciousVersions := lookupVersions db pkgName
  let matchedVersions := maliciousVersions.filter (fun m => versionMatches versionSpec m)
  { matchesFound := decide (0 < matchedVersions.length)
    matchedVersions := matchedVersions
    allMaliciousVersions := maliciousVersions }

/-- One finding record, as pushed onto `this.findings`. -/
structure Finding where
  file : String
  package : String
  version : String
  type : String
  severity : Severity
  message : String
  matchedMaliciousVersions : List String
  allKnownMaliciousVersions : List String
deriving DecidableEq

/-! ## Manifest (JSON) scanning -/

/-- The four dependency sections of a parsed `package.json`, each an
association list in JavaScript key order. -/
structure ManifestJson where
  dependencies : List (String × String)
  devDependencies : List (String × String)
  optionalDependencies : List (String × String)
  peerDependencies : List (String × String)

/-- JavaScript spread merge `{...a, ...b}`: the keys of `a` in their
order with values overridden by `b` where present, then the keys of `b`
not in `a`, in their order. -/
def jsAssign (a b : List (String × String)) : List (String × String) :=
  (a.map (fun p =>
    match b.find? (fun q => q.1 = p.1) with
    | some q => (p.1, q.2)
    | none => p))
  ++ b.filter (fun q => !(a.any (fun p => p.1 = q.1)))

/-- `allDeps = {...dependencies, ...devDependencies,
...optionalDependencies, ...peerDependencies}` of `scanJsonFile`. -/
def allDeps (m : ManifestJson) : List (String × String) :=
  jsAssign (jsAssign (jsAssign m.dependencies m.devDependencies)
    m.optionalDependencies) m.peerDependencies

/-- The finding `scanJsonFile` pushes for one flagged dependency entry:
CRITICAL when some known malicious version satisfies the spec, else
WARNING when the package has known malicious versions, else INFO. -/
def manifestFinding (filePath : String) (db : List (String × List String))
    (pkgName versionSpec : String) : Finding :=
  let versionCheck := checkVersionAgainstMalicious db pkgName versionSpec
  let severity : Severity :=
    if versionCheck.matchesFound then .CRITICAL
    else if 0 < versionCheck.allMaliciousVersions.length then .WARNING
    else .INFO
  -- The source wraps the spec in single quotation marks inside these
  -- messages; the quotation marks are omitted here, nothing else is.
  let message : String :=
    if versionCheck.matchesFound then
      ("Version range ") ++ versionSpec ++
        (" could install malicious version(s): ") ++
        (String.intercalate (", ") versionCheck.matchedVersions)
    else if 0 < versionCheck.allMaliciousVersions.length then
      ("Version ") ++ versionSpec ++ (" appears safe. Known malicious: ") ++
        (String.intercalate (", ") versionCheck.allMaliciousVersions)
    else ("Package name matches malicious list")
  { file := filePath
    package := pkgName
    version := versionSpec
    type := ("package.json")
    severity := severity
    message := message
    matchedMaliciousVersions := versionCheck.matchedVersions
    allKnownMaliciousVersions := versionCheck.allMaliciousVersions }

/-- `scanJsonFile(filePath, content)`: on a parse failure the catch
block contributes nothing; otherwise every merged dependency entry whose
name is on the malicious list yields one finding. -/
def scanJsonFile (filePath : String) (maliciousPackages : List String)
    (db : List (String × List String)) (parsed : Option ManifestJson) :
    List Finding :=
  match parsed with
  | none => []
  | some m =>
    (allDeps m).filterMap (fun e =>
      if maliciousPackages.contains e.1 then
        some (manifestFinding filePath db e.1 e.2)
      else none)

/-! ## Lock-file scanning

`scanLockFile` builds two regular expressions per malicious package
name (with the name's metacharacters escaped, so the name is matched
literally):
- presence: `["']name["']`, tested anywhere in the content;
- extraction: `["']name["'][\s\S]{0,200}version["']?:\s*["']([^"']+)["']`,
  whose first (leftmost) match yields the captured version; at the
  leftmost start the bounded gap `[\s\S]{0,200}` is greedy, so it
  commits to the largest gap from which the rest still matches.
The matchers below implement exactly these semantics. -/

/-- The character class `["']`. -/
def isQuoteChar (c : Char) : Bool := c = '"' || c = '\''

/-- Match a literal character list at the head of the input, returning
the remainder. The escaped package name matches literally. -/
def matchLit : List Char → List Char → Option (List Char)
  | [], s => some s
  | _ :: _, [] => none
  | p :: ps, c :: cs => if p = c then matchLit ps cs else none

/-- Match `["']name["']` at the head of the input. -/
def matchQuotedName (pkg : List Char) : List Char → Option (List Char)
  | [] => none
  | c :: rest =>
    if isQuoteChar c then
      match matchLit pkg rest with
      | some (d :: rest2) => if isQuoteChar d then some rest2 else none
      | _ => none
    else none

/-- Match `version["']?:\s*["']([^"']+)["']` at the head of the input,
returning the captured group. `["']?` is greedy but must be followed by
`:`, `\s*` is greedy and a quote is not whitespace, and `([^"']+)` is
greedy with a quote required next, so each quantifier is deterministic
here. -/
def matchVersionTail (s : List Char) : Option (List Char) :=
  match matchLit ("version".toList) s with
  | none => none
  | some s1 =>
    let afterColon : Option (List Char) :=
      match s1 with
      | [] => none
      | c :: r =>
        if isQuoteChar c then
          match r with
          | ':' :: r2 => some r2
          | _ => none
        else if c = ':' then some r else none
    match afterColon with
    | none => none
    | some r2 =>
      let r3 := r2.dropWhile isJsSpace
      match r3 with
      | [] => none
      | q :: r4 =>
        if isQuoteChar q then
          let cap := r4.takeWhile (fun c => !isQuoteChar c)
          let rest := r4.dropWhile (fun c => !isQuoteChar c)
          if cap = [] then none
          else
            match rest with
            | q2 :: _ => if isQuoteChar q2 then some cap else none
            | [] => none
        else none

/-- Greedy `[\s\S]{0,200}` followed by the version tail: try the gap
sizes from `k` down to `0` and keep the first success. -/
def tryGapFrom (s : List Char) : Nat → Option (List Char)
  | 0 => matchVersionTail s
  | k + 1 =>
    match matchVersionTail (s.drop (k + 1)) with
    | some v => some v
    | none => tryGapFrom s k

/-- `[\s\S]{0,200}version["']?:\s*["']([^"']+)["']` at the head of the
input, greedy in the gap. -/
def matchGapTail (s : List Char) : Option (List Char) :=
  tryGapFrom s (min 200 s.length)

/-- The whole extraction regex anchored at the head of the input. -/
def matchAt (pkg s : List Char) : Option (List Char) :=
  (matchQuotedName pkg s).bind matchGapTail

/-- The leftmost match of the extraction regex: `content.match(...)`
without the global flag returns the first match, scanning start
positions from the left. -/
def scanForVersion (pkg : List Char) : List Char → Option (List Char)
  | [] => none
  | c :: rest =>
    match matchAt pkg (c :: rest) with
    | some v => some v
    | none => scanForVersion pkg rest

/-- `regex.test(content)` for the presence regex `["']name["']`. -/
def containsQuoted (pkg : List Char) : List Char → Bool
  | [] => false
  | c :: rest => (matchQuotedName pkg (c :: rest)).isSome || containsQuoted pkg rest

/-- The version string `scanLockFile` extracts for one package, when
the extraction regex matches. -/
def extractLockVersion (pkg content : String) : Option String :=
  (scanForVersion pkg.toList content.toList).map (fun l => l.asString)

/-- The finding `scanLockFile` pushes for one malicious package name:
`none` when the quoted name is absent or no version can be extracted
(the `'unknown'` sentinel), else a WARNING baseline upgraded to
CRITICAL when the extracted version satisfies some known malicious
version under `versionMatches`. -/
def lockFinding (filePath : String) (db : List (String × List String))
    (maliciousPkg content : String) : Option Finding :=
  if containsQuoted maliciousPkg.toList content.toList then
    let version :=
      match extractLockVersion maliciousPkg content with
      | some v => v
      | none => ("unknown")
    if version ≠ ("unknown") then
      let versionCheck := checkVersionAgainstMalicious db maliciousPkg version
      let severity : Severity :=
        if versionCheck.matchesFound then .CRITICAL else .WARNING
      let message : String :=
        if versionCheck.matchesFound then
          ("CONFIRMED MALICIOUS version installed: ") ++ version
        else if 0 < versionCheck.allMaliciousVersions.length then
          ("Installed version ") ++ version ++
            (" appears safe. Known malicious: ") ++
            (String.intercalate (", ") versionCheck.allMaliciousVersions)
        else ("Package found in lock file with version ") ++ version
      some
        { file := filePath
          package := maliciousPkg
          version := version
          type := ("lock file")
          severity := severity
          message := message
          matchedMaliciousVersions := versionCheck.matchedVersions
          allKnownMaliciousVersions := versionCheck.allMaliciousVersions }
    else none
  else none

/-- `scanLockFile(filePath, content)`: one pass over the malicious
package list, at most one finding per name. -/
def scanLockFile (filePath : String) (maliciousPackages : List String)
    (db : List (String × List String)) (content : String) : List Finding :=
  maliciousPackages.filterMap (fun pkg => lockFinding filePath db pkg content)

/-! ## Directory traversal and the scan

A directory's entry list (as `fs.readdirSync` returns it) is modelled
as a cons-list in which a directory entry carries its own entry list,
so the walk is plain structural recursion. The configuration carries
the parts of `this.config` and of the loaded database that the engine
reads; `verbose`, `outputFormat` and `streamOutput` only drive console
output and are not modelled, and filesystem read errors (absorbed by
try/catch in the source) do not arise in the model. -/

/-- A directory's entries: files with raw content, and subdirectories
with their own entries. -/
inductive FSEntries where
  | nil : FSEntries
  | file (name content : String) (rest : FSEntries) : FSEntries
  | dir (name : String) (children : FSEntries) (rest : FSEntries) : FSEntries
deriving DecidableEq

/-- Concatenation of two sibling entry lists. -/
def FSEntries.append : FSEntries → FSEntries → FSEntries
  | .nil, b => b
  | .file n c rest, b => .file n c (rest.append b)
  | .dir n ch rest, b => .dir n ch (rest.append b)

/-- `this.dependencyFiles`: the five recognized dependency file names. -/
def dependencyFiles : List String :=
  [("package.json"), ("package-lock.json"), ("yarn.lock"),
   ("pnpm-lock.yaml"), ("npm-shrinkwrap.json")]

/-- `filePath.endsWith(suffix)` on character lists. -/
def endsWithL (suf l : List Char) : Bool := suf.isSuffixOf l

/-- The engine's configuration and loaded database. -/
structure ScanConfig where
  scanPath : String
  excludeDirs : List String
  maliciousPackages : List String
  maliciousVersions : List (String × List String)
  parseJson : String → Option ManifestJson

/-- The default `excludeDirs` of the constructor and of the CLI. -/
def defaultExcludeDirs : List String :=
  [("node_modules"), (".git"), (".cache"), ("dist"), ("build")]

/-- `scanFile(filePath)` after the project-tracking bookkeeping: read
the content and dispatch on the file path's extension; `.json` goes to
the structured manifest path, `.lock` / `.yaml` to the lock-text path. -/
def scanFile (cfg : ScanConfig) (filePath content : String) : List Finding :=
  if endsWithL (".json".toList) filePath.toList then
    scanJsonFile filePath cfg.maliciousPackages cfg.maliciousVersions
      (cfg.parseJson content)
  else if endsWithL (".lock".toList) filePath.toList ||
      endsWithL (".yaml".toList) filePath.toList then
    scanLockFile filePath cfg.maliciousPackages cfg.maliciousVersions content
  else []

/-- `walkDirectory(dir)`, findings only: iterate the entries in order;
recurse into subdirectories unless the name is excluded (`continue`);
scan files whose name is a recognized dependency file name. -/
def walkEntries (cfg : ScanConfig) (dir : String) : FSEntries → List Finding
  | .nil => []
  | .file name content rest =>
    (if dependencyFiles.contains name then
      scanFile cfg (dir ++ ("/") ++ name) content
    else []) ++ walkEntries cfg dir rest
  | .dir name children rest =>
    (if cfg.excludeDirs.contains name then []
     else walkEntries cfg (dir ++ ("/") ++ name) children)
    ++ walkEntries cfg dir rest

/-- The `this.scannedDirs` counter: one per `walkDirectory` call, i.e.
one per directory entered (excluded directories are never entered). -/
def countDirs (cfg : ScanConfig) : FSEntries → Nat
  | .nil => 0
  | .file _ _ rest => countDirs cfg rest
  | .dir name children rest =>
    (if cfg.excludeDirs.contains name then 0 else 1 + countDirs cfg children)
    + countDirs cfg rest

/-- The `this.scannedFiles` counter: one per recognized dependency file
reached by the walk. -/
def countFiles (cfg : ScanConfig) : FSEntries → Nat
  | .nil => 0
  | .file name _ rest =>
    (if dependencyFiles.contains name then 1 else 0) + countFiles cfg rest
  | .dir name children rest =>
    (if cfg.excludeDirs.contains name then 0 else countFiles cfg children)
    + countFiles cfg rest

/-- The summary counters of the returned result. -/
structure ScanSummary where
  directoriesScanned : Nat
  filesScanned : Nat
  maliciousPackagesInDb : Nat
  maliciousVersionsInDb : Nat
  findingsCount : Nat
  criticalCount : Nat
  warningCount : Nat
  infoCount : Nat
deriving DecidableEq

/-- The `{summary, findings}` object `scan()` returns. -/
structure ScanResult where
  summary : ScanSummary
  findings : List Finding
deriving DecidableEq

/-- `scan()`: throw when the scan path does not exist (`none` models a
missing root), else walk the tree from the root and assemble summary
and findings. The thrown `Error` is modelled as `Except.error` carrying
the source's message. -/
def scan (cfg : ScanConfig) (root : Option FSEntries) : Except String ScanResult :=
  match root with
  | none => .error (("Scan path not found: ") ++ cfg.scanPath)
  | some entries =>
    let findings := walkEntries cfg cfg.scanPath entries
    .ok
      { summary :=
          { directoriesScanned := 1 + countDirs cfg entries
            filesScanned := countFiles cfg entries
            maliciousPackagesInDb := cfg.maliciousPackages.length
            maliciousVersionsInDb := (cfg.maliciousVersions.map (fun e => e.2.length)).sum
            findingsCount := findings.length
            criticalCount := (findings.filter (fun f => f.severity = Severity.CRITICAL)).length
            warningCount := (findings.filter (fun f => f.severity = Severity.WARNING)).length
            infoCount := (findings.filter (fun f => f.severity = Severity.INFO)).length }
        findings := findings }

/-- The CLI `main`'s exit-code decision: any error caught during setup
or scan exits 3; otherwise 2 on any critical, else 1 on any warning,
else 0. -/
def exitCodeOf (res : Except String ScanResult) : Nat :=
  match res with
  | .error _ => 3
  | .ok results =>
    if 0 < results.summary.criticalCount then 2
    else if 0 < results.summary.warningCount then 1
    else 0

/-- Whether a recognized dependency file references some package of the
malicious list at all: a flagged dependency name for the structured
path, a quoted occurrence of a flagged name for the lock-text path. -/
def fileRefsMalicious (cfg : ScanConfig) (name content : String) : Bool :=
  if dependencyFiles.contains name then
    if endsWithL (".json".toList) name.toList then
      match cfg.parseJson content with
      | some m => (allDeps m).any (fun e => cfg.maliciousPackages.contains e.1)
      | none => false
    else cfg.maliciousPackages.any (fun pkg => containsQuoted pkg.toList content.toList)
  else false

/-- No dependency file reachable without entering an excluded-name
directory references a malicious package: the hypothesis of claim C6.
A subtree under an excluded directory name is never inspected, at any
depth. -/
def refsClean (cfg : ScanConfig) : FSEntries → Bool
  | .nil => true
  | .file name content rest =>
    !(fileRefsMalicious cfg name content) && refsClean cfg rest
  | .dir name children rest =>
    (cfg.excludeDirs.contains name || refsClean cfg children) && refsClean cfg rest

/-! ## Lemmas about triple extraction, trimming and stripping -/

theorem isJsSpace_not_digit {ch : Char} (h : isJsSpace ch = true) :
    ch.isDigit = false := by
  simp only [isJsSpace, Bool.or_eq_true, decide_eq_true_eq] at h
  rcases h with (((((((h | h) | h) | h) | h) | h) | h) | h) <;> subst h <;> decide

theorem isJsSpace_ne_dot {ch : Char} (h : isJsSpace ch = true) : ch ≠ '.' := by
  simp only [isJsSpace, Bool.or_eq_true, decide_eq_true_eq] at h
  rcases h with (((((((h | h) | h) | h) | h) | h) | h) | h) <;> subst h <;> decide

theorem takeDigits_cons_not_digit {ch : Char} (h : ch.isDigit = false)
    (l : List Char) : takeDigits (ch :: l) = ([], ch :: l) := by
  simp [takeDigits, h]

theorem takeDigits_all_space {ws : List Char}
    (h : ∀ ch ∈ ws, isJsSpace ch = true) : takeDigits ws = ([], ws) := by
  cases ws with
  | nil => rfl
  | cons ch l =>
    exact takeDigits_cons_not_digit
      (isJsSpace_not_digit (h ch (List.mem_cons_self ch l))) l

theorem takeDigits_append_eat (x ws : List Char) (hws : takeDigits ws = ([], ws)) :
    takeDigits (x ++ ws) = ((takeDigits x).1, (takeDigits x).2 ++ ws) := by
  induction x with
  | nil => simpa [takeDigits] using hws
  | cons ch l ih =>
    by_cases hd : ch.isDigit
    · simp [takeDigits, hd, ih]
    · simp [takeDigits, hd]

theorem matchTriple_append_ws (s ws : List Char)
    (h : ∀ ch ∈ ws, isJsSpace ch = true) :
    matchTriple (s ++ ws) = matchTriple s := by
  have hws : takeDigits ws = ([], ws) := takeDigits_all_space h
  unfold matchTriple
  rw [takeDigits_append_eat s ws hws]
  rcases h1 : takeDigits s with ⟨d1, r1⟩
  simp only
  by_cases hd1 : d1 = []
  · simp [hd1]
  · simp only [hd1, if_false]
    cases r1 with
    | nil =>
      cases hws2 : ws with
      | nil => simp
      | cons wc wr =>
        have hwc : wc ≠ '.' :=
          isJsSpace_ne_dot (h wc (by rw [hws2]; exact List.mem_cons_self _ _))
        simp [hwc]
    | cons c1 rr1 =>
      simp only [List.cons_append]
      by_cases hc1 : c1 = '.'
      · subst hc1
        simp only [if_pos rfl]
        rw [takeDigits_append_eat rr1 ws hws]
        rcases h2 : takeDigits rr1 with ⟨d2, r2⟩
        simp only
        by_cases hd2 : d2 = []
        · simp [hd2]
        · simp only [hd2, if_false]
          cases r2 with
          | nil =>
            cases hws2 : ws with
            | nil => simp
            | cons wc wr =>
              have hwc : wc ≠ '.' :=
                isJsSpace_ne_dot (h wc (by rw [hws2]; exact List.mem_cons_self _ _))
              simp [hwc]
          | cons c2 rr2 =>
            simp only [List.cons_append]
            by_cases hc2 : c2 = '.'
            · subst hc2
              simp only [if_pos rfl]
              rw [takeDigits_append_eat rr2 ws hws]
            · simp [hc2]
      · simp [hc1]

theorem matchTriple_cons_not_digit {ch : Char} (h : ch.isDigit = false)
    (l : List Char) : matchTriple (ch :: l) = none := by
  unfold matchTriple
  rw [takeDigits_cons_not_digit h l]
  simp

theorem findTriple_cons_not_digit {ch : Char} (h : ch.isDigit = false)
    (l : List Char) : findTriple (ch :: l) = findTriple l := by
  have hdef : findTriple (ch :: l) =
      match matchTriple (ch :: l) with
      | some v => some v
      | none => findTriple l := rfl
  rw [hdef, matchTriple_cons_not_digit h l]

theorem findTriple_all_space {ws : List Char}
    (h : ∀ ch ∈ ws, isJsSpace ch = true) : findTriple ws = none := by
  induction ws with
  | nil => rfl
  | cons ch l ih =>
    rw [findTriple_cons_not_digit
      (isJsSpace_not_digit (h ch (List.mem_cons_self ch l))) l]
    exact ih fun d hd => h d (List.mem_cons_of_mem ch hd)

theorem findTriple_append_ws (m ws : List Char)
    (h : ∀ ch ∈ ws, isJsSpace ch = true) :
    findTriple (m ++ ws) = findTriple m := by
  induction m with
  | nil => simpa using findTriple_all_space h
  | cons ch l ih =>
    show findTriple (ch :: (l ++ ws)) = findTriple (ch :: l)
    unfold findTriple
    rw [show ch :: (l ++ ws) = (ch :: l) ++ ws from rfl,
      matchTriple_append_ws (ch :: l) ws h]
    cases matchTriple (ch :: l) with
    | some v => rfl
    | none => exact ih

theorem findTriple_ws_append (ws m : List Char)
    (h : ∀ ch ∈ ws, isJsSpace ch = true) :
    findTriple (ws ++ m) = findTriple m := by
  induction ws with
  | nil => rfl
  | cons ch l ih =>
    rw [List.cons_append,
      findTriple_cons_not_digit (isJsSpace_not_digit (h ch (List.mem_cons_self ch l)))]
    exact ih fun d hd => h d (List.mem_cons_of_mem ch hd)

/-- Trimming never changes which triple `parseVersion` extracts: the
trimmed-off characters are whitespace, which can neither be part of a
triple nor merge two characters of one. -/
theorem findTriple_jsTrim (l : List Char) : findTriple (jsTrim l) = findTriple l := by
  unfold jsTrim
  set x := l.dropWhile isJsSpace with hx
  have hleft : findTriple x = findTriple l := by
    conv_rhs => rw [← List.takeWhile_append_dropWhile isJsSpace l]
    rw [findTriple_ws_append _ _ (fun ch hch => List.mem_takeWhile_imp hch), hx]
  have hsplit : (x.reverse.dropWhile isJsSpace).reverse ++
      (x.reverse.takeWhile isJsSpace).reverse = x := by
    rw [← List.reverse_append, List.takeWhile_append_dropWhile, List.reverse_reverse]
  have hws : ∀ ch ∈ (x.reverse.takeWhile isJsSpace).reverse, isJsSpace ch = true := by
    intro ch hch
    rw [List.mem_reverse] at hch
    exact List.mem_takeWhile_imp hch
  calc findTriple (x.reverse.dropWhile isJsSpace).reverse
      = findTriple ((x.reverse.dropWhile isJsSpace).reverse ++
          (x.reverse.takeWhile isJsSpace).reverse) :=
        (findTriple_append_ws _ _ hws).symm
    _ = findTriple x := by rw [hsplit]
    _ = findTriple l := hleft

theorem findTriple_cons_none {ch : Char} {cs : List Char}
    (h : findTriple (ch :: cs) = none) : findTriple cs = none := by
  have hdef : findTriple (ch :: cs) =
      match matchTriple (ch :: cs) with
      | some v => some v
      | none => findTriple cs := rfl
  rw [hdef] at h
  cases hm : matchTriple (ch :: cs) with
  | some v => rw [hm] at h; cases h
  | none => rw [hm] at h; exact h

theorem findTriple_stripRangeChar_none {l : List Char}
    (h : findTriple l = none) : findTriple (stripRangeChar l) = none := by
  cases l with
  | nil => exact h
  | cons ch cs =>
    have hdef : stripRangeChar (ch :: cs) =
        if (decide (ch = '^') || decide (ch = '~')) = true then cs
        else ch :: cs := rfl
    rw [hdef]
    split
    · exact findTriple_cons_none h
    · exact h

theorem findTriple_cons_caret (cs : List Char) :
    findTriple ('^' :: cs) = findTriple cs :=
  findTriple_cons_not_digit (by decide) cs

theorem startsCaret_cons_caret (cs : List Char) : startsCaret ('^' :: cs) = true := rfl

theorem stripRangeChar_cons_caret (cs : List Char) : stripRangeChar ('^' :: cs) = cs := by
  simp [stripRangeChar]

/-! ## Claims C2, C3, C4: the version matcher -/

/-- Claim C2 (amended): an input without an extractable
`major.minor.patch` triple never satisfies `versionMatches`, except
through the textual-identity short circuit that precedes parsing: when
the two trimmed strings differ, an unparseable side forces `false`. -/
theorem claim_C2_fail_closed (rangeSpec targetVersion : String)
    (h : parseVersion rangeSpec = none ∨ parseVersion targetVersion = none)
    (hne : jsTrim rangeSpec.toList ≠ jsTrim targetVersion.toList) :
    versionMatches rangeSpec targetVersion = false := by
  unfold versionMatches
  rw [if_neg hne]
  unfold parseVersion at h
  rcases h with hr | hv
  · have h1 : findTriple (stripRangeChar (jsTrim rangeSpec.toList)) = none :=
      findTriple_stripRangeChar_none (by rw [findTriple_jsTrim]; exact hr)
    rw [h1]
  · have h2 : findTriple (jsTrim targetVersion.toList) = none := by
      rw [findTriple_jsTrim]; exact hv
    rw [h2]
    cases findTriple (stripRangeChar (jsTrim rangeSpec.toList)) <;> rfl

/-- Claim C2, as frozen, is false on the code: two textually identical
unparseable strings satisfy `versionMatches` through the equality short
circuit, although neither contains a version triple. -/
theorem claim_C2_counterexample :
    parseVersion ("evil") = none ∧ versionMatches ("evil") ("evil") = true := by
  decide

/-- Witness for `claim_C2_fail_closed` at a concrete unparseable input. -/
theorem claim_C2_witness : versionMatches ("abc") ("xyz") = false :=
  claim_C2_fail_closed ("abc") ("xyz") (Or.inl (by decide)) (by decide)

/-- Claim C3: a caret range whose base triple is `X.Y.Z` with `X > 0`
is satisfied exactly by the candidates whose triple `(a, b, c)` has
`a = X` and either `b > Y`, or `b = Y` and `c ≥ Z`. -/
theorem claim_C3_caret_major (rangeSpec targetVersion : String) (cs : List Char)
    (X Y Z a b c : Nat)
    (hr : jsTrim rangeSpec.toList = '^' :: cs)
    (hrange : findTriple cs = some ⟨X, Y, Z⟩)
    (hX : 0 < X)
    (hparse : parseVersion targetVersion = some ⟨a, b, c⟩) :
    versionMatches rangeSpec targetVersion = true ↔
      a = X ∧ (Y < b ∨ (b = Y ∧ Z ≤ c)) := by
  have htarget : findTriple (jsTrim targetVersion.toList) = some ⟨a, b, c⟩ := by
    rw [findTriple_jsTrim]
    exact hparse
  unfold versionMatches
  by_cases heq : jsTrim rangeSpec.toList = jsTrim targetVersion.toList
  · rw [if_pos heq]
    have hsame : findTriple (jsTrim targetVersion.toList) = some ⟨X, Y, Z⟩ := by
      rw [← heq, hr, findTriple_cons_caret, hrange]
    rw [htarget] at hsame
    simp only [Option.some.injEq, Version.mk.injEq] at hsame
    obtain ⟨ha, hb, hc⟩ := hsame
    subst ha; subst hb; subst hc
    simp
  · rw [if_neg heq]
    have h1 : findTriple (stripRangeChar (jsTrim rangeSpec.toList)) = some ⟨X, Y, Z⟩ := by
      rw [hr, stripRangeChar_cons_caret, hrange]
    rw [h1, htarget, hr]
    have hX0 : ¬(X = 0) := Nat.pos_iff_ne_zero.mp hX
    simp [startsCaret_cons_caret, hX0]

/-- Witness for `claim_C3_caret_major`: `^1.2.3` against `1.2.10`. -/
theorem claim_C3_witness :
    versionMatches ("^1.2.3") ("1.2.10") = true ↔
      1 = 1 ∧ (2 < 2 ∨ (2 = 2 ∧ 3 ≤ 10)) :=
  claim_C3_caret_major ("^1.2.3") ("1.2.10") ("1.2.3".toList) 1 2 3 1 2 10
    (by decide) (by decide) (by decide) (by decide)

/-- Claim C4: a caret range whose base triple is `0.0.Z` is satisfied
exactly by the candidates whose extracted triple is `0.0.Z` itself. -/
theorem claim_C4_caret_zero_zero (rangeSpec targetVersion : String) (cs : List Char)
    (Z : Nat)
    (hr : jsTrim rangeSpec.toList = '^' :: cs)
    (hrange : findTriple cs = some ⟨0, 0, Z⟩) :
    versionMatches rangeSpec targetVersion = true ↔
      parseVersion targetVersion = some ⟨0, 0, Z⟩ := by
  unfold parseVersion
  rw [← findTriple_jsTrim targetVersion.toList]
  unfold versionMatches
  by_cases heq : jsTrim rangeSpec.toList = jsTrim targetVersion.toList
  · rw [if_pos heq]
    have hsame : findTriple (jsTrim targetVersion.toList) = some ⟨0, 0, Z⟩ := by
      rw [← heq, hr, findTriple_cons_caret, hrange]
    exact iff_of_true rfl hsame
  · rw [if_neg heq]
    have h1 : findTriple (stripRangeChar (jsTrim rangeSpec.toList)) = some ⟨0, 0, Z⟩ := by
      rw [hr, stripRangeChar_cons_caret, hrange]
    rw [h1, hr]
    cases htarget : findTriple (jsTrim targetVersion.toList) with
    | none => simp
    | some t =>
      obtain ⟨a, b, c⟩ := t
      simp [startsCaret_cons_caret, Version.mk.injEq, and_assoc]

/-- Witness for `claim_C4_caret_zero_zero`: `^0.0.3` matches only the
`0.0.3` triple; `0.0.4` is refused. -/
theorem claim_C4_witness :
    versionMatches ("^0.0.3") ("0.0.4") = true ↔
      parseVersion ("0.0.4") = some ⟨0, 0, 3⟩ :=
  claim_C4_caret_zero_zero ("^0.0.3") ("0.0.4") ("0.0.3".toList) 3
    (by decide) (by decide)

/-! ## Claim C5: manifest-path severity derivation -/

theorem length_pos_iff_exists_match (M : List String) (spec : String) :
    0 < (M.filter (fun mv => versionMatches spec mv)).length ↔
      ∃ mv ∈ M, versionMatches spec mv = true := by
  rw [List.length_pos]
  constructor
  · intro hne
    obtain ⟨mv, hmv⟩ := List.exists_mem_of_ne_nil _ hne
    rw [List.mem_filter] at hmv
    exact ⟨mv, hmv.1, hmv.2⟩
  · rintro ⟨mv, hm, hp⟩ hnil
    rw [List.filter_eq_nil_iff] at hnil
    exact hnil mv hm hp

/-- Claim C5: a flagged manifest entry is always emitted as a finding;
its severity is CRITICAL exactly when some known malicious version
satisfies the spec, WARNING exactly when none does but the known-bad
list is non-empty, INFO exactly when the known-bad list is empty; and
`matchedMaliciousVersions` is exactly the satisfying subset. -/
theorem claim_C5_manifest_severity (filePath : String) (maliciousPackages : List String)
    (db : List (String × List String)) (m : ManifestJson) (pkgName versionSpec : String)
    (hmem : (pkgName, versionSpec) ∈ allDeps m)
    (hflag : maliciousPackages.contains pkgName = true) :
    manifestFinding filePath db pkgName versionSpec ∈
      scanJsonFile filePath maliciousPackages db (some m) ∧
    ((manifestFinding filePath db pkgName versionSpec).severity = Severity.CRITICAL ↔
      ∃ mv ∈ lookupVersions db pkgName, versionMatches versionSpec mv = true) ∧
    ((manifestFinding filePath db pkgName versionSpec).severity = Severity.WARNING ↔
      (¬∃ mv ∈ lookupVersions db pkgName, versionMatches versionSpec mv = true) ∧
        lookupVersions db pkgName ≠ []) ∧
    ((manifestFinding filePath db pkgName versionSpec).severity = Severity.INFO ↔
      lookupVersions db pkgName = []) ∧
    (manifestFinding filePath db pkgName versionSpec).matchedMaliciousVersions =
      (lookupVersions db pkgName).filter (fun mv => versionMatches versionSpec mv) := by
  refine ⟨?_, ?_⟩
  · rw [scanJsonFile, List.mem_filterMap]
    exact ⟨(pkgName, versionSpec), hmem, by rw [hflag]; simp⟩
  have hsev : (manifestFinding filePath db pkgName versionSpec).severity =
      (if 0 < ((lookupVersions db pkgName).filter
          (fun mv => versionMatches versionSpec mv)).length then Severity.CRITICAL
        else if 0 < (lookupVersions db pkgName).length then Severity.WARNING
        else Severity.INFO) := by
    simp [manifestFinding, checkVersionAgainstMalicious]
  have hmatched : (manifestFinding filePath db pkgName versionSpec).matchedMaliciousVersions =
      (lookupVersions db pkgName).filter (fun mv => versionMatches versionSpec mv) := by
    simp [manifestFinding, checkVersionAgainstMalicious]
  have hex := length_pos_iff_exists_match (lookupVersions db pkgName) versionSpec
  by_cases hcrit :
      0 < ((lookupVersions db pkgName).filter (fun mv => versionMatches versionSpec mv)).length
  · have hMne : lookupVersions db pkgName ≠ [] := by
      intro hM
      rw [hM] at hcrit
      simp at hcrit
    refine ⟨?_, ?_, ?_, hmatched⟩
    · rw [hsev, if_pos hcrit]
      simp [hex.mp hcrit]
    · rw [hsev, if_pos hcrit]
      simp [hex.mp hcrit]
    · rw [hsev, if_pos hcrit]
      simp [hMne]
  · by_cases hwarn : 0 < (lookupVersions db pkgName).length
    · have hMne : lookupVersions db pkgName ≠ [] := List.length_pos.mp hwarn
      refine ⟨?_, ?_, ?_, hmatched⟩
      · rw [hsev, if_neg hcrit, if_pos hwarn]
        simp only [hex] at hcrit
        simp [hcrit]
      · rw [hsev, if_neg hcrit, if_pos hwarn]
        simp only [hex] at hcrit
        simp [hcrit, hMne]
      · rw [hsev, if_neg hcrit, if_pos hwarn]
        simp [hMne]
    · have hM : lookupVersions db pkgName = [] := by
        cases hL : lookupVersions db pkgName with
        | nil => rfl
        | cons x xs => exact absurd (by rw [hL]; simp) hwarn
      refine ⟨?_, ?_, ?_, hmatched⟩
      · rw [hsev, if_neg hcrit, if_neg hwarn]
        simp [hM]
      · rw [hsev, if_neg hcrit, if_neg hwarn]
        simp [hM]
      · rw [hsev, if_neg hcrit, if_neg hwarn]
        simp [hM]

/-- Witness for `claim_C5_manifest_severity`: a manifest declaring
`left-pad ^1.2.0` against known malicious version `1.2.3` yields a
CRITICAL finding whose matched subset is `["1.2.3"]`. -/
theorem claim_C5_witness :
    manifestFinding ("p/package.json") [(("left-pad"), [("1.2.3")])]
        ("left-pad") ("^1.2.0") ∈
      scanJsonFile ("p/package.json") [("left-pad")]
        [(("left-pad"), [("1.2.3")])]
        (some ⟨[(("left-pad"), ("^1.2.0"))], [], [], []⟩) ∧
    ((manifestFinding ("p/package.json") [(("left-pad"), [("1.2.3")])]
        ("left-pad") ("^1.2.0")).severity = Severity.CRITICAL ↔
      ∃ mv ∈ lookupVersions [(("left-pad"), [("1.2.3")])] ("left-pad"),
        versionMatches ("^1.2.0") mv = true) ∧
    ((manifestFinding ("p/package.json") [(("left-pad"), [("1.2.3")])]
        ("left-pad") ("^1.2.0")).severity = Severity.WARNING ↔
      (¬∃ mv ∈ lookupVersions [(("left-pad"), [("1.2.3")])] ("left-pad"),
        versionMatches ("^1.2.0") mv = true) ∧
        lookupVersions [(("left-pad"), [("1.2.3")])] ("left-pad") ≠ []) ∧
    ((manifestFinding ("p/package.json") [(("left-pad"), [("1.2.3")])]
        ("left-pad") ("^1.2.0")).severity = Severity.INFO ↔
      lookupVersions [(("left-pad"), [("1.2.3")])] ("left-pad") = []) ∧
    (manifestFinding ("p/package.json") [(("left-pad"), [("1.2.3")])]
        ("left-pad") ("^1.2.0")).matchedMaliciousVersions =
      (lookupVersions [(("left-pad"), [("1.2.3")])] ("left-pad")).filter
        (fun mv => versionMatches ("^1.2.0") mv) :=
  claim_C5_manifest_severity ("p/package.json") [("left-pad")]
    [(("left-pad"), [("1.2.3")])] ⟨[(("left-pad"), ("^1.2.0"))], [], [], []⟩
    ("left-pad") ("^1.2.0") (by decide) (by decide)

/-! ## Claims C1 and C10: lock-file scanning -/

theorem containsQuoted_of_scanForVersion {pkg l v : List Char}
    (h : scanForVersion pkg l = some v) : containsQuoted pkg l = true := by
  induction l with
  | nil => cases h
  | cons c rest ih =>
    have hdefS : scanForVersion pkg (c :: rest) =
        match matchAt pkg (c :: rest) with
        | some w => some w
        | none => scanForVersion pkg rest := rfl
    have hdefC : containsQuoted pkg (c :: rest) =
        ((matchQuotedName pkg (c :: rest)).isSome || containsQuoted pkg rest) := rfl
    rw [hdefS] at h
    rw [hdefC]
    cases hm : matchAt pkg (c :: rest) with
    | some w =>
      have hq : (matchQuotedName pkg (c :: rest)).isSome = true := by
        unfold matchAt at hm
        cases hqn : matchQuotedName pkg (c :: rest) with
        | some r => rfl
        | none => rw [hqn] at hm; cases hm
      rw [hq, Bool.true_or]
    | none =>
      rw [hm] at h
      rw [ih h, Bool.or_true]

theorem lockFinding_package {filePath pkg content : String}
    {db : List (String × List String)} {f : Finding}
    (h : lockFinding filePath db pkg content = some f) : f.package = pkg := by
  unfold lockFinding at h
  split at h
  · split at h
    · simp only [ne_eq] at h
      split at h
      · injection h with h1
        rw [← h1]
      · cases h
    · simp at h
  · cases h

theorem filter_package_filterMap_le (mp : List String)
    (g : String → Option Finding)
    (hpkg : ∀ p f, g p = some f → f.package = p) (pkg : String) :
    ((mp.filterMap g).filter (fun f => f.package = pkg)).length ≤ mp.count pkg := by
  induction mp with
  | nil => simp
  | cons p rest ih =>
    rw [List.count_cons]
    cases hg : g p with
    | none =>
      rw [List.filterMap_cons_none hg]
      exact Nat.le_trans ih (Nat.le_add_right _ _)
    | some f =>
      rw [List.filterMap_cons_some hg]
      by_cases hp : f.package = pkg
      · have hpe : p = pkg := by rw [← hpkg p f hg, hp]
        rw [List.filter_cons_of_pos (by simp [hp])]
        simp only [List.length_cons, hpe, beq_self_eq_true, if_pos rfl]
        exact Nat.add_le_add_right ih 1
      · rw [List.filter_cons_of_neg (by simp [hp])]
        exact Nat.le_trans ih (Nat.le_add_right _ _)

theorem scanForVersion_leftmost {pkg l v : List Char}
    (h : scanForVersion pkg l = some v) :
    ∃ i, matchAt pkg (l.drop i) = some v ∧
      ∀ j < i, matchAt pkg (l.drop j) = none := by
  induction l with
  | nil => cases h
  | cons c rest ih =>
    have hdefS : scanForVersion pkg (c :: rest) =
        match matchAt pkg (c :: rest) with
        | some w => some w
        | none => scanForVersion pkg rest := rfl
    rw [hdefS] at h
    cases hm : matchAt pkg (c :: rest) with
    | some w =>
      rw [hm] at h
      injection h with hw
      subst hw
      exact ⟨0, hm, fun j hj => absurd hj (Nat.not_lt_zero j)⟩
    | none =>
      rw [hm] at h
      obtain ⟨i, h1, h2⟩ := ih h
      refine ⟨i + 1, h1, fun j hj => ?_⟩
      cases j with
      | zero => exact hm
      | succ j' => exact h2 j' (Nat.lt_of_succ_lt_succ hj)

theorem lockFinding_version {filePath pkg content : String}
    {db : List (String × List String)} {f : Finding}
    (h : lockFinding filePath db pkg content = some f) :
    extractLockVersion pkg content = some f.version ∧ f.version ≠ ("unknown") := by
  unfold lockFinding at h
  split at h
  · split at h
    · rename_i v heq
      simp only [ne_eq] at h
      split at h
      · rename_i hne
        injection h with h1
        rw [← h1]
        exact ⟨heq, hne⟩
      · cases h
    · simp at h
  · cases h

theorem lockFinding_of_unknown {filePath pkg content : String}
    {db : List (String × List String)}
    (hex : extractLockVersion pkg content = some ("unknown"))
    : lockFinding filePath db pkg content = none := by
  unfold lockFinding
  cases hc : containsQuoted pkg.toList content.toList with
  | false => simp
  | true =>
    rw [if_pos rfl, hex]
    rw [if_neg (fun hne => hne rfl)]

/-- Claim C1 (amended): a lock-file package occurrence with an
extractable version always yields a finding carrying that version, and
the finding is CRITICAL exactly when some known malicious version of
the package satisfies `versionMatches` with the extracted string as the
range spec. For an extracted string without a `^`/`~` prefix this is
exact triple identity, but a prefixed extracted string is interpreted
as a range, not compared for identity. -/
theorem claim_C1_lock_severity (filePath : String)
    (db : List (String × List String)) (pkg content v : String)
    (hex : extractLockVersion pkg content = some v)
    (hunk : v ≠ ("unknown")) :
    ∃ f, lockFinding filePath db pkg content = some f ∧
      f.package = pkg ∧ f.version = v ∧
      (f.severity = Severity.CRITICAL ↔
        ∃ mv ∈ lookupVersions db pkg, versionMatches v mv = true) := by
  obtain ⟨l, hl, hv⟩ : ∃ l, scanForVersion pkg.toList content.toList = some l ∧
      l.asString = v := by
    unfold extractLockVersion at hex
    cases hs : scanForVersion pkg.toList content.toList with
    | none => rw [hs] at hex; cases hex
    | some l =>
      rw [hs] at hex
      injection hex with hv
      exact ⟨l, rfl, hv⟩
  have hcont : containsQuoted pkg.toList content.toList = true :=
    containsQuoted_of_scanForVersion hl
  have hexx : extractLockVersion pkg content = some v := hex
  unfold lockFinding
  rw [hcont, if_pos rfl, hexx, if_pos hunk]
  refine ⟨_, rfl, rfl, rfl, ?_⟩
  by_cases hcrit :
      0 < ((lookupVersions db pkg).filter (fun mv => versionMatches v mv)).length
  · have hexi := (length_pos_iff_exists_match (lookupVersions db pkg) v).mp hcrit
    simp [checkVersionAgainstMalicious, hcrit, hexi]
  · have hnexi : ¬∃ mv ∈ lookupVersions db pkg, versionMatches v mv = true :=
      fun he => hcrit ((length_pos_iff_exists_match _ _).mpr he)
    simp [checkVersionAgainstMalicious, hcrit, hnexi]

/-- Witness for `claim_C1_lock_severity`, scenario 4 of the spec: lock
text quoting `evil-pkg` with `"version": "3.3.3"` within the window,
and `3.3.3` known malicious. -/
theorem claim_C1_witness :
    ∃ f, lockFinding ("p/yarn.lock") [(("evil-pkg"), [("3.3.3")])] ("evil-pkg")
        ("\"evil-pkg\" \"version\": \"3.3.3\"") = some f ∧
      f.package = ("evil-pkg") ∧ f.version = ("3.3.3") ∧
      (f.severity = Severity.CRITICAL ↔
        ∃ mv ∈ lookupVersions [(("evil-pkg"), [("3.3.3")])] ("evil-pkg"),
          versionMatches ("3.3.3") mv = true) :=
  claim_C1_lock_severity ("p/yarn.lock") [(("evil-pkg"), [("3.3.3")])]
    ("evil-pkg") ("\"evil-pkg\" \"version\": \"3.3.3\"") ("3.3.3")
    (by decide) (by decide)

/-- Claim C1, as frozen, is false on the code: lock text whose
extracted version string is `^1.0.0` (not identical, textually or as a
triple, to the sole known malicious version `1.5.0`) still produces a
CRITICAL finding, because the lock path reuses the range matcher. -/
theorem claim_C1_counterexample :
    lockFinding ("p/yarn.lock") [(("evil-pkg"), [("1.5.0")])] ("evil-pkg")
        ("\"evil-pkg\" \"version\": \"^1.0.0\"") = some
      { file := ("p/yarn.lock")
        package := ("evil-pkg")
        version := ("^1.0.0")
        type := ("lock file")
        severity := Severity.CRITICAL
        message := ("CONFIRMED MALICIOUS version installed: ^1.0.0")
        matchedMaliciousVersions := [("1.5.0")]
        allKnownMaliciousVersions := [("1.5.0")] } ∧
    (∀ mv ∈ [("1.5.0")], ("^1.0.0") ≠ mv ∧
      ¬(parseVersion ("^1.0.0") = parseVersion mv ∧ parseVersion mv ≠ none)) := by
  decide

/-- Claim C10: the lock scanner emits at most one finding per package
(one pass over the package list, regardless of how often the name
occurs in the content); the version a finding carries comes from the
leftmost position at which the quoted name is followed, within the
200-character window, by an extractable version field; and a content
whose extracted version string is literally `unknown` yields no
finding. -/
theorem claim_C10_lock_per_package (filePath content pkg : String)
    (mp : List String) (db : List (String × List String))
    (hcount : mp.count pkg ≤ 1) :
    ((scanLockFile filePath mp db content).filter
        (fun f => f.package = pkg)).length ≤ 1 ∧
    (∀ f, lockFinding filePath db pkg content = some f →
      f.version ≠ ("unknown") ∧
      ∃ i, matchAt pkg.toList (content.toList.drop i) = some f.version.toList ∧
        ∀ j < i, matchAt pkg.toList (content.toList.drop j) = none) ∧
    (extractLockVersion pkg content = some ("unknown") →
      lockFinding filePath db pkg content = none) := by
  refine ⟨?_, ?_, fun hex => lockFinding_of_unknown hex⟩
  · exact Nat.le_trans
      (filter_package_filterMap_le mp _ (fun p f h => lockFinding_package h) pkg)
      hcount
  · intro f hf
    obtain ⟨hex, hunk⟩ := lockFinding_version hf
    refine ⟨hunk, ?_⟩
    obtain ⟨l, hl, hv⟩ : ∃ l, scanForVersion pkg.toList content.toList = some l ∧
        l.asString = f.version := by
      unfold extractLockVersion at hex
      cases hs : scanForVersion pkg.toList content.toList with
      | none => rw [hs] at hex; cases hex
      | some l =>
        rw [hs] at hex
        injection hex with hv
        exact ⟨l, rfl, hv⟩
    obtain ⟨i, h1, h2⟩ := scanForVersion_leftmost hl
    exact ⟨i, by rw [← hv]; exact h1, h2⟩

/-- Witness for `claim_C10_lock_per_package`: a content quoting the
package twice still yields one finding, whose version comes from the
first extractable occurrence. -/
theorem claim_C10_witness :
    ((scanLockFile ("p/yarn.lock") [("evil-pkg")] [(("evil-pkg"), [("3.3.3")])]
        ("\"evil-pkg\" \"version\": \"1.0.0\" \"evil-pkg\" \"version\": \"3.3.3\"")).filter
      (fun f => f.package = ("evil-pkg"))).length ≤ 1 ∧
    (∀ f, lockFinding ("p/yarn.lock") [(("evil-pkg"), [("3.3.3")])] ("evil-pkg")
        ("\"evil-pkg\" \"version\": \"1.0.0\" \"evil-pkg\" \"version\": \"3.3.3\"") = some f →
      f.version ≠ ("unknown") ∧
      ∃ i, matchAt ("evil-pkg").toList
          (("\"evil-pkg\" \"version\": \"1.0.0\" \"evil-pkg\" \"version\": \"3.3.3\"").toList.drop i) =
          some f.version.toList ∧
        ∀ j < i, matchAt ("evil-pkg").toList
          (("\"evil-pkg\" \"version\": \"1.0.0\" \"evil-pkg\" \"version\": \"3.3.3\"").toList.drop j) = none) ∧
    (extractLockVersion ("evil-pkg")
        ("\"evil-pkg\" \"version\": \"1.0.0\" \"evil-pkg\" \"version\": \"3.3.3\"") = some ("unknown") →
      lockFinding ("p/yarn.lock") [(("evil-pkg"), [("3.3.3")])] ("evil-pkg")
        ("\"evil-pkg\" \"version\": \"1.0.0\" \"evil-pkg\" \"version\": \"3.3.3\"") = none) :=
  claim_C10_lock_per_package ("p/yarn.lock")
    ("\"evil-pkg\" \"version\": \"1.0.0\" \"evil-pkg\" \"version\": \"3.3.3\"")
    ("evil-pkg") [("evil-pkg")] [(("evil-pkg"), [("3.3.3")])] (by decide)

/-! ## Claims C6 and C7: traversal pruning and corrupt manifests -/

theorem toList_append (a b : String) : (a ++ b).toList = a.toList ++ b.toList :=
  String.data_append a b

theorem endsWithL_append {suf n : List Char} (d : List Char)
    (h : endsWithL suf n = true) : endsWithL suf (d ++ n) = true := by
  unfold endsWithL at *
  rw [List.isSuffixOf_iff_suffix] at *
  exact h.trans (List.suffix_append d n)

theorem endsWithL_false_of_other (suf1 suf2 p : List Char)
    (hlen : suf1.length = suf2.length) (hne : suf1 ≠ suf2)
    (h : endsWithL suf1 p = true) : endsWithL suf2 p = false := by
  unfold endsWithL at *
  rw [List.isSuffixOf_iff_suffix] at h
  cases hq : suf2.isSuffixOf p with
  | false => rfl
  | true =>
    rw [List.isSuffixOf_iff_suffix] at hq
    rcases List.suffix_or_suffix_of_suffix h hq with hs | hs
    · exact absurd (hs.eq_of_length hlen) hne
    · exact absurd (hs.eq_of_length hlen.symm).symm hne

theorem scanLockFile_eq_nil {filePath content : String} {mp : List String}
    {db : List (String × List String)}
    (h : ∀ pkg ∈ mp, containsQuoted pkg.toList content.toList = false) :
    scanLockFile filePath mp db content = [] := by
  unfold scanLockFile
  rw [List.filterMap_eq_nil_iff]
  intro pkg hpkg
  unfold lockFinding
  rw [h pkg hpkg]
  simp

theorem scanJsonFile_eq_nil {filePath : String} {mp : List String}
    {db : List (String × List String)} {parsed : Option ManifestJson}
    (h : ∀ m, parsed = some m →
      ∀ e ∈ allDeps m, mp.contains e.1 = false) :
    scanJsonFile filePath mp db parsed = [] := by
  unfold scanJsonFile
  cases hp : parsed with
  | none => rfl
  | some m =>
    rw [List.filterMap_eq_nil_iff]
    intro e he
    rw [h m hp e he]
    simp

theorem scanFile_eq_nil_of_not_refs (cfg : ScanConfig) (dir name content : String)
    (hname : dependencyFiles.contains name = true)
    (hrefs : fileRefsMalicious cfg name content = false) :
    scanFile cfg (dir ++ ("/") ++ name) content = [] := by
  unfold fileRefsMalicious at hrefs
  rw [hname, if_pos rfl] at hrefs
  have hdec : name = ("package.json") ∨ name = ("package-lock.json") ∨
      name = ("yarn.lock") ∨ name = ("pnpm-lock.yaml") ∨
      name = ("npm-shrinkwrap.json"):= by
    have := hname
    unfold dependencyFiles at this
    simp only [List.contains_cons, List.contains_nil, Bool.or_eq_true, beq_iff_eq,
      Bool.or_eq_false_iff] at this
    tauto
  have hjsonCase : endsWithL (".json".toList) name.toList = true →
      scanFile cfg (dir ++ ("/") ++ name) content = [] := by
    intro hj
    rw [hj, if_pos rfl] at hrefs
    unfold scanFile
    rw [toList_append, endsWithL_append _ hj, if_pos rfl]
    refine scanJsonFile_eq_nil (fun m hm e he => ?_)
    rw [hm] at hrefs
    cases hc : cfg.maliciousPackages.contains e.1 with
    | false => rfl
    | true =>
      rw [List.any_eq_false] at hrefs
      exact absurd hc (by simpa using hrefs e he)
  have hlockCase : ∀ ext : List Char, ext.length = 5 → ext ≠ ".json".toList →
      endsWithL ext name.toList = true →
      endsWithL (".json".toList) name.toList = false →
      (endsWithL (".lock".toList) ((dir ++ ("/") ++ name).toList) = true ∨
        endsWithL (".yaml".toList) ((dir ++ ("/") ++ name).toList) = true) →
      scanFile cfg (dir ++ ("/") ++ name) content = [] := by
    intro ext hl hne hext hnj hdisp
    rw [hnj, if_neg (by simp)] at hrefs
    unfold scanFile
    rw [toList_append]
    rw [endsWithL_false_of_other ext (".json".toList) _ (by rw [hl]; rfl) hne
      (endsWithL_append _ hext)]
    rw [if_neg (by simp)]
    rw [toList_append] at hdisp
    have hor : (endsWithL (".lock".toList) ((dir ++ ("/")).toList ++ name.toList) ||
        endsWithL (".yaml".toList) ((dir ++ ("/")).toList ++ name.toList)) = true := by
      rcases hdisp with hd | hd
      · rw [hd, Bool.true_or]
      · rw [hd, Bool.or_true]
    rw [hor, if_pos rfl]
    refine scanLockFile_eq_nil (fun pkg hpkg => ?_)
    cases hcq : containsQuoted pkg.toList content.toList with
    | false => rfl
    | true =>
      rw [List.any_eq_false] at hrefs
      exact absurd hcq (by simpa using hrefs pkg hpkg)
  rcases hdec with hn | hn | hn | hn | hn <;> subst hn
  · exact hjsonCase (by decide)
  · exact hjsonCase (by decide)
  · exact hlockCase (".lock".toList) (by decide) (by decide) (by decide) (by decide)
      (Or.inl (endsWithL_append _ (by decide)))
  · exact hlockCase (".yaml".toList) (by decide) (by decide) (by decide) (by decide)
      (Or.inr (endsWithL_append _ (by decide)))
  · exact hjsonCase (by decide)

theorem walkEntries_eq_nil_of_refsClean (cfg : ScanConfig) (dir : String)
    (es : FSEntries) (h : refsClean cfg es = true) :
    walkEntries cfg dir es = [] := by
  induction es generalizing dir with
  | nil => rfl
  | file name content rest ih =>
    have hdef : refsClean cfg (.file name content rest) =
        (!(fileRefsMalicious cfg name content) && refsClean cfg rest) := rfl
    rw [hdef, Bool.and_eq_true, Bool.not_eq_true'] at h
    unfold walkEntries
    rw [ih dir h.2, List.append_nil]
    cases hdep : dependencyFiles.contains name with
    | false => simp
    | true =>
      rw [if_pos rfl]
      exact scanFile_eq_nil_of_not_refs cfg dir name content hdep h.1
  | dir name children rest ihc ihr =>
    have hdef : refsClean cfg (.dir name children rest) =
        ((cfg.excludeDirs.contains name || refsClean cfg children) &&
          refsClean cfg rest) := rfl
    rw [hdef, Bool.and_eq_true] at h
    unfold walkEntries
    rw [ihr dir h.2, List.append_nil]
    cases hexcl : cfg.excludeDirs.contains name with
    | true => rw [if_pos rfl]
    | false =>
      rw [if_neg (by simp)]
      have hc : refsClean cfg children = true := by
        have := h.1
        rw [hexcl, Bool.false_or] at this
        exact this
      exact ihc (dir ++ ("/") ++ name) hc

/-- Claim C6: when every malicious reference sits inside a directory
whose name is in the exclusion set (at any depth, matched by name), the
walk yields no findings and `scan` returns a result with zero
findings. -/
theorem claim_C6_excluded_dirs (cfg : ScanConfig) (entries : FSEntries)
    (h : refsClean cfg entries = true) :
    walkEntries cfg cfg.scanPath entries = [] ∧
    ∀ res, scan cfg (some entries) = Except.ok res → res.findings = [] := by
  have hw := walkEntries_eq_nil_of_refsClean cfg cfg.scanPath entries h
  refine ⟨hw, fun res hres => ?_⟩
  unfold scan at hres
  injection hres with h1
  rw [← h1]
  exact hw

/-- Witness for `claim_C6_excluded_dirs`: a malicious manifest inside
`node_modules` is pruned and the scan comes back clean. -/
theorem claim_C6_witness :
    walkEntries
      { scanPath := ("root")
        excludeDirs := defaultExcludeDirs
        maliciousPackages := [("evil-pkg")]
        maliciousVersions := [(("evil-pkg"), [("1.0.0")])]
        parseJson := fun _ =>
          some ⟨[(("evil-pkg"), ("1.0.0"))], [], [], []⟩ }
      (ScanConfig.scanPath
        { scanPath := ("root")
          excludeDirs := defaultExcludeDirs
          maliciousPackages := [("evil-pkg")]
          maliciousVersions := [(("evil-pkg"), [("1.0.0")])]
          parseJson := fun _ =>
            some ⟨[(("evil-pkg"), ("1.0.0"))], [], [], []⟩ })
      (.dir ("node_modules")
        (.file ("package.json") ("irrelevant") .nil) .nil) = [] ∧
    ∀ res,
      scan
        { scanPath := ("root")
          excludeDirs := defaultExcludeDirs
          maliciousPackages := [("evil-pkg")]
          maliciousVersions := [(("evil-pkg"), [("1.0.0")])]
          parseJson := fun _ =>
            some ⟨[(("evil-pkg"), ("1.0.0"))], [], [], []⟩ }
        (some (.dir ("node_modules")
          (.file ("package.json") ("irrelevant") .nil) .nil)) = Except.ok res →
      res.findings = [] :=
  claim_C6_excluded_dirs _ _ (by decide)

theorem scanFile_json_parse_none (cfg : ScanConfig) (dir name content : String)
    (hjson : endsWithL (".json".toList) name.toList = true)
    (hparse : cfg.parseJson content = none) :
    scanFile cfg (dir ++ ("/") ++ name) content = [] := by
  unfold scanFile
  rw [toList_append, endsWithL_append _ hjson, if_pos rfl, hparse]
  rfl

/-- Claim C7: a manifest whose content the structured parser rejects
contributes zero findings, raises nothing (the embedding is total), and
leaves the findings of every other file of the run unchanged: deleting
the corrupt file from its directory yields the same walk result. -/
theorem claim_C7_invalid_manifest (cfg : ScanConfig) (dir name content : String)
    (pre post : FSEntries)
    (hjson : endsWithL (".json".toList) name.toList = true)
    (hparse : cfg.parseJson content = none) :
    walkEntries cfg dir (.file name content .nil) = [] ∧
    walkEntries cfg dir (pre.append (.file name content post)) =
      walkEntries cfg dir (pre.append post) := by
  have hfile : ∀ d : String,
      (if dependencyFiles.contains name then
        scanFile cfg (d ++ ("/") ++ name) content
      else []) = [] := by
    intro d
    cases hdep : dependencyFiles.contains name with
    | false => simp
    | true => rw [if_pos rfl]; exact scanFile_json_parse_none cfg d name content hjson hparse
  constructor
  · unfold walkEntries
    rw [hfile dir]
    rfl
  · induction pre generalizing dir with
    | nil =>
      have hdefA : FSEntries.nil.append (FSEntries.file name content post) =
          FSEntries.file name content post := rfl
      have hdefB : FSEntries.nil.append post = post := rfl
      rw [hdefA, hdefB]
      have hw : walkEntries cfg dir (.file name content post) =
          (if dependencyFiles.contains name then
            scanFile cfg (dir ++ ("/") ++ name) content
          else []) ++ walkEntries cfg dir post := rfl
      rw [hw, hfile dir, List.nil_append]
    | file n c rest ih =>
      have hdefA : (FSEntries.file n c rest).append (FSEntries.file name content post) =
          FSEntries.file n c (rest.append (FSEntries.file name content post)) := rfl
      have hdefB : (FSEntries.file n c rest).append post =
          FSEntries.file n c (rest.append post) := rfl
      rw [hdefA, hdefB]
      unfold walkEntries
      rw [ih dir]
    | dir n ch rest ihc ihr =>
      have hdefA : (FSEntries.dir n ch rest).append (FSEntries.file name content post) =
          FSEntries.dir n ch (rest.append (FSEntries.file name content post)) := rfl
      have hdefB : (FSEntries.dir n ch rest).append post =
          FSEntries.dir n ch (rest.append post) := rfl
      rw [hdefA, hdefB]
      unfold walkEntries
      rw [ihr dir]

/-- Witness for `claim_C7_invalid_manifest`: a corrupt `package.json`
between two healthy siblings leaves the walk result unchanged. -/
theorem claim_C7_witness :
    walkEntries
      { scanPath := ("root")
        excludeDirs := defaultExcludeDirs
        maliciousPackages := [("evil-pkg")]
        maliciousVersions := [(("evil-pkg"), [("1.0.0")])]
        parseJson := fun _ => none }
      ("root") (.file ("package.json") ("not json") .nil) = [] ∧
    walkEntries
      { scanPath := ("root")
        excludeDirs := defaultExcludeDirs
        maliciousPackages := [("evil-pkg")]
        maliciousVersions := [(("evil-pkg"), [("1.0.0")])]
        parseJson := fun _ => none }
      ("root")
      ((FSEntries.file ("yarn.lock") ("\"evil-pkg\" \"version\": \"1.0.0\"") .nil).append
        (.file ("package.json") ("not json")
          (.file ("yarn.lock") ("\"evil-pkg\" \"version\": \"1.0.0\"") .nil))) =
    walkEntries
      { scanPath := ("root")
        excludeDirs := defaultExcludeDirs
        maliciousPackages := [("evil-pkg")]
        maliciousVersions := [(("evil-pkg"), [("1.0.0")])]
        parseJson := fun _ => none }
      ("root")
      ((FSEntries.file ("yarn.lock") ("\"evil-pkg\" \"version\": \"1.0.0\"") .nil).append
        (.file ("yarn.lock") ("\"evil-pkg\" \"version\": \"1.0.0\"") .nil)) :=
  claim_C7_invalid_manifest _ ("root") ("package.json") ("not json")
    (FSEntries.file ("yarn.lock") ("\"evil-pkg\" \"version\": \"1.0.0\"") .nil)
    (FSEntries.file ("yarn.lock") ("\"evil-pkg\" \"version\": \"1.0.0\"") .nil)
    (by decide) rfl

/-! ## Claims C8 and C9: missing root and exit codes -/

/-- Claim C8: a missing scan root makes `scan` fail with the
path-not-found error; no result object is produced at all. -/
theorem claim_C8_missing_root (cfg : ScanConfig) :
    scan cfg none = Except.error (("Scan path not found: ") ++ cfg.scanPath) ∧
    ∀ res, scan cfg none ≠ Except.ok res :=
  ⟨rfl, fun _ h => Except.noConfusion h⟩

/-- Witness for `claim_C8_missing_root` at a concrete configuration. -/
theorem claim_C8_witness :
    scan
      { scanPath := ("missing")
        excludeDirs := defaultExcludeDirs
        maliciousPackages := [("evil-pkg")]
        maliciousVersions := []
        parseJson := fun _ => none } none =
      Except.error (("Scan path not found: ") ++
        ScanConfig.scanPath
          { scanPath := ("missing")
            excludeDirs := defaultExcludeDirs
            maliciousPackages := [("evil-pkg")]
            maliciousVersions := []
            parseJson := fun _ => none }) ∧
    ∀ res,
      scan
        { scanPath := ("missing")
          excludeDirs := defaultExcludeDirs
          maliciousPackages := [("evil-pkg")]
          maliciousVersions := []
          parseJson := fun _ => none } none ≠ Except.ok res :=
  claim_C8_missing_root _

theorem length_filter_pos_iff_any (l : List Finding) (p : Finding → Bool) :
    0 < (l.filter p).length ↔ l.any p = true := by
  rw [List.length_pos, ne_eq, List.filter_eq_nil_iff, List.any_eq_true]
  constructor
  · intro h
    by_contra hno
    push_neg at hno
    exact h fun a ha => by simpa using hno a ha
  · rintro ⟨a, ha, hp⟩ hall
    exact hall a ha hp

/-- Claim C9: an error during setup or scan exits 3; a completed scan
exits 2 exactly when a CRITICAL finding is present (taking precedence
over warnings), 1 exactly when no CRITICAL but some WARNING finding is
present, and 0 exactly when neither is present. -/
theorem claim_C9_exit_codes (e : String) (cfg : ScanConfig) (entries : FSEntries) :
    exitCodeOf (Except.error e) = 3 ∧
    ∀ res, scan cfg (some entries) = Except.ok res →
      ((exitCodeOf (Except.ok res) = 2 ↔
        res.findings.any (fun f => f.severity = Severity.CRITICAL) = true) ∧
      (exitCodeOf (Except.ok res) = 1 ↔
        res.findings.any (fun f => f.severity = Severity.CRITICAL) = false ∧
        res.findings.any (fun f => f.severity = Severity.WARNING) = true) ∧
      (exitCodeOf (Except.ok res) = 0 ↔
        res.findings.any (fun f => f.severity = Severity.CRITICAL) = false ∧
        res.findings.any (fun f => f.severity = Severity.WARNING) = false)) := by
  refine ⟨rfl, fun res hres => ?_⟩
  unfold scan at hres
  injection hres with h1
  subst h1
  unfold exitCodeOf
  simp only [length_filter_pos_iff_any]
  by_cases hc : (walkEntries cfg cfg.scanPath entries).any
      (fun f => f.severity = Severity.CRITICAL) = true
  · rw [if_pos hc]
    refine ⟨by simp [hc], by simp [hc], by simp [hc]⟩
  · have hcf : (walkEntries cfg cfg.scanPath entries).any
        (fun f => f.severity = Severity.CRITICAL) = false := by
      simpa using hc
    rw [if_neg hc]
    by_cases hw : (walkEntries cfg cfg.scanPath entries).any
        (fun f => f.severity = Severity.WARNING) = true
    · rw [if_pos hw]
      refine ⟨by simp [hcf], by simp [hcf, hw], by simp [hw]⟩
    · have hwf : (walkEntries cfg cfg.scanPath entries).any
          (fun f => f.severity = Severity.WARNING) = false := by
        simpa using hw
      rw [if_neg hw]
      refine ⟨by simp [hcf], by simp [hwf], by simp [hcf, hwf]⟩

/-- Witness for `claim_C9_exit_codes`: a scan of one manifest declaring
the flagged package at a matching range yields exit code 2. -/
theorem claim_C9_witness :
    exitCodeOf (Except.error ("boom")) = 3 ∧
    ∀ res,
      scan
        { scanPath := ("root")
          excludeDirs := defaultExcludeDirs
          maliciousPackages := [("evil-pkg")]
          maliciousVersions := [(("evil-pkg"), [("1.2.3")])]
          parseJson := fun _ =>
            some ⟨[(("evil-pkg"), ("^1.2.0"))], [], [], []⟩ }
        (some (.file ("package.json") ("whatever") .nil)) = Except.ok res →
      ((exitCodeOf (Except.ok res) = 2 ↔
        res.findings.any (fun f => f.severity = Severity.CRITICAL) = true) ∧
      (exitCodeOf (Except.ok res) = 1 ↔
        res.findings.any (fun f => f.severity = Severity.CRITICAL) = false ∧
        res.findings.any (fun f => f.severity = Severity.WARNING) = true) ∧
      (exitCodeOf (Except.ok res) = 0 ↔
        res.findings.any (fun f => f.severity = Severity.CRITICAL) = false ∧
        res.findings.any (fun f => f.severity = Severity.WARNING) = false)) :=
  claim_C9_exit_codes ("boom") _ _

end Sha1hulud
